import Mathlib

set_option maxHeartbeats 1000000

/-! Shallow embedding of the puzzle-extraction core of src-tauri/src/lib.rs:
text normalisation, Wordle label formatting and row scanning, the
window.gameData blob locator, Sudoku board decoding, and the Sudoku
field-reading pipeline. Page strings are modelled as lists of characters;
the ambient clock value used for the Wordle date is passed as a parameter. -/

/-- Result record of a successful Wordle extraction (struct WordleData). -/
structure WordleData where
  date : List Char
  word : List Char
  puzzle : List Char
  deriving DecidableEq, Repr

/-- Result record of a successful Sudoku extraction (struct SudokuData). -/
structure SudokuData where
  display_date : String
  print_date : String
  difficulty : String
  puzzle : List (List Nat)
  solution : List (List Nat)
  deriving DecidableEq, Repr

/-- Drop leading whitespace, the left half of str::trim. -/
def trimLeft (s : List Char) : List Char := s.dropWhile Char.isWhitespace

/-- Drop trailing whitespace, the right half of str::trim. -/
def trimRight (s : List Char) : List Char := (s.reverse.dropWhile Char.isWhitespace).reverse

/-- Model of str::trim: whitespace removed from both ends. -/
def trimChars (s : List Char) : List Char := trimRight (trimLeft s)

/-- Model of str::trim_end_matches with the pattern a single semicolon:
removes every trailing semicolon. -/
def trimEndSemis (s : List Char) : List Char := (s.reverse.dropWhile (· == ';')).reverse

/-- Model of str::find for a substring needle: index of the leftmost
occurrence, or none. -/
def findSubstring (needle : List Char) : List Char → Option Nat
  | [] => if needle.isEmpty then some 0 else none
  | c :: rest =>
    if needle.isPrefixOf (c :: rest) then some 0
    else (findSubstring needle rest).map (· + 1)

/-- Model of str::contains for a substring needle. -/
def containsSeq (needle hay : List Char) : Bool := (findSubstring needle hay).isSome

/-- The marker text searched for by extract_game_data_blob. -/
def MARKER : List Char := "window.gameData = ".data

/-- The terminator text searched for after the marker. -/
def TERMINATOR : List Char := "</script>".data

/-- Model of extract_game_data_blob: locate the first marker occurrence, then
the first following terminator, and return the enclosed text trimmed, with
all trailing semicolons removed, trimmed again. -/
def extract_game_data_blob (html : List Char) : Except String (List Char) :=
  match findSubstring MARKER html with
  | none => .error "window.gameData marker not found"
  | some start =>
    let after_marker := html.drop (start + MARKER.length)
    match findSubstring TERMINATOR after_marker with
    | none => .error "Unable to find </script> following window.gameData"
    | some e =>
      let raw_block := trimChars (after_marker.take e)
      .ok (trimChars (trimEndSemis raw_block))

/-- Strip one trailing semicolon if present; helper for the spec-side reading
of the blob locator, which says a single trailing semicolon is stripped. -/
def stripSingleTrailingSemi (s : List Char) : List Char :=
  match s.getLast? with
  | some ';' => s.dropLast
  | _ => s

/-- Spec-side rendering of the claim text for the blob locator: identical to
extract_game_data_blob except that only a single trailing semicolon is
stripped, as the specification sentence states. Used to compare the code
against the claim. -/
def locateBlobSpec (html : List Char) : Except String (List Char) :=
  match findSubstring MARKER html with
  | none => .error "window.gameData marker not found"
  | some start =>
    let after_marker := html.drop (start + MARKER.length)
    match findSubstring TERMINATOR after_marker with
    | none => .error "Unable to find </script> following window.gameData"
    | some e =>
      let raw_block := trimChars (after_marker.take e)
      .ok (trimChars (stripSingleTrailingSemi raw_block))

/-- Accumulator loop splitting a character list on whitespace runs, skipping
empty pieces, as str::split_whitespace does. -/
def splitWsGo : List Char → List Char → List (List Char)
  | cur, [] => if cur.isEmpty then [] else [cur.reverse]
  | cur, c :: cs =>
    if c.isWhitespace then
      if cur.isEmpty then splitWsGo [] cs
      else cur.reverse :: splitWsGo [] cs
    else splitWsGo (c :: cur) cs

/-- Whitespace-separated pieces of a character list. -/
def splitWs (s : List Char) : List (List Char) := splitWsGo [] s

/-- Join pieces with single spaces. -/
def joinSpaces : List (List Char) → List Char
  | [] => []
  | [w] => w
  | w :: ws => w ++ ' ' :: joinSpaces ws

/-- Model of collect_compact_text: split the element text on whitespace runs
and rejoin with single spaces. -/
def collect_compact_text (t : List Char) : List Char := joinSpaces (splitWs t)

/-- Model of extract_hidden_word applied to the text of a span: keep only
ASCII letters, trim, uppercase, and accept exactly length five. -/
def extract_hidden_word (t : List Char) : Option (List Char) :=
  let normalized := t.filter Char.isAlpha
  let word := (trimChars normalized).map Char.toUpper
  if word.length = 5 then some word else none

/-- Model of format_puzzle_label. -/
def format_puzzle_label (raw : List Char) : List Char :=
  let trimmed := trimChars raw
  if trimmed.isEmpty then "Wordle".data
  else
    let lower := trimmed.map Char.toLower
    if containsSeq "wordle".data lower then trimmed
    else if trimmed.head? = some '#' then "Wordle ".data ++ trimmed
    else "Wordle #".data ++ trimmed

/-- One table cell, abstracted to what the Wordle scan reads from it: its
whole text content, and the text contents of its descendant spans that match
the hidden-span selector, in document order. -/
structure Cell where
  text : List Char
  hiddenSpans : List (List Char)

/-- The word produced by one row, if any: the third cell's hidden spans are
tried in order and the first valid five-letter word wins. -/
def rowWord (cells : List Cell) : Option (List Char) :=
  (cells[2]?).bind fun answer_cell =>
    answer_cell.hiddenSpans.findSome? extract_hidden_word

/-- Model of the row-scanning loop of get_wordle_answer_impl. Each row is its
list of td cells; the first and second cells are read through
collect_compact_text with an empty default, and the scan succeeds on the
first row whose third cell yields a hidden word. The value of the local
clock, formatted as by the code, is the parameter today. -/
def scanRows (today : List Char) : List (List Cell) → Except String WordleData
  | [] => .error "Could not find Wordle answer on page"
  | cells :: rest =>
    let date_cell := ((cells[0]?).map fun c => collect_compact_text c.text).getD []
    let puzzle_cell := ((cells[1]?).map fun c => collect_compact_text c.text).getD []
    match cells[2]? with
    | none => scanRows today rest
    | some answer_cell =>
      match answer_cell.hiddenSpans.findSome? extract_hidden_word with
      | none => scanRows today rest
      | some word =>
        let puzzle := format_puzzle_label puzzle_cell
        let date_label :=
          if containsSeq "today".data (date_cell.map Char.toLower) then today else today
        .ok ⟨date_label, word, puzzle⟩

/-- Shallow model of a serde_json Value. A number carries its view as a
64-bit signed integer: some n when as_i64 succeeds, none for a numeric value
not representable as an i64 (such as the fractional 4.5 or an unsigned value
above the i64 range). -/
inductive JValue where
  | null
  | bool (b : Bool)
  | num (asI64 : Option Int)
  | str (s : String)
  | arr (elems : List JValue)
  | obj (fields : List (String × JValue))

/-- Model of Value::as_i64. -/
def JValue.as_i64 : JValue → Option Int
  | .num i => i
  | _ => none

/-- Model of Value::as_str. -/
def JValue.as_str : JValue → Option String
  | .str s => some s
  | _ => none

/-- Model of Value::as_array. -/
def JValue.as_array : JValue → Option (List JValue)
  | .arr xs => some xs
  | _ => none

/-- Model of Value::get with a string key: defined on objects, none
elsewhere. -/
def JValue.getF : JValue → String → Option JValue
  | .obj fields, key => fields.lookup key
  | _, _ => none

/-- The per-cell loop of board_from_json: convert each element through
as_i64, failing on a non-numeric value, then range-check the integer
against 0..=9, failing on an out-of-range digit; errors abort the walk. -/
def digitsFromCells (label : String) : List JValue → Except String (List Nat)
  | [] => .ok []
  | cell :: rest =>
    match cell.as_i64 with
    | none => .error ("Encountered non-numeric value in " ++ label)
    | some number =>
      if 0 ≤ number ∧ number ≤ 9 then
        match digitsFromCells label rest with
        | .ok ds => .ok (number.toNat :: ds)
        | .error e => .error e
      else
        .error ("Invalid Sudoku digit " ++ toString number ++ " in " ++ label)

/-- Model of slice::chunks with a positive chunk size. -/
def chunksOf (n : Nat) (xs : List α) : List (List α) :=
  match n, xs with
  | _, [] => []
  | 0, _ => []
  | m + 1, x :: rest => ((x :: rest).take (m + 1)) :: chunksOf (m + 1) (rest.drop m)
termination_by xs.length
decreasing_by simp [List.length_drop]; omega

/-- Model of board_from_json: require an array of exactly 81 digit cells and
chunk the flat digits into nine rows of nine. -/
def board_from_json (value : JValue) (label : String) : Except String (List (List Nat)) :=
  match value.as_array with
  | none => .error ("Sudoku " ++ label ++ " data is not an array")
  | some cells =>
    if cells.length ≠ 81 then
      .error ("Sudoku " ++ label ++ " expected 81 entries but found " ++ toString cells.length)
    else
      match digitsFromCells label cells with
      | .error e => .error e
      | .ok flat => .ok (chunksOf 9 flat)

/-- The pure tail of fetch_sudoku_puzzle_impl after the gameData JSON has
been parsed: field reads, defaults, and the two board decodes, in the
code's order. -/
def sudoku_from_root (root : JValue) : Except String SudokuData :=
  let display_date := ((root.getF "displayDate").bind JValue.as_str).getD ""
  match root.getF "hard" with
  | none => .error "Missing hard puzzle block"
  | some hard =>
    let difficulty := ((hard.getF "difficulty").bind JValue.as_str).getD "Hard"
    let print_date := ((hard.getF "print_date").bind JValue.as_str).getD display_date
    match hard.getF "puzzle_data" with
    | none => .error "Missing puzzle_data block"
    | some puzzle_data =>
      match puzzle_data.getF "puzzle" with
      | none => .error "Missing puzzle array"
      | some pv =>
        match board_from_json pv "puzzle" with
        | .error e => .error e
        | .ok puzzle =>
          match puzzle_data.getF "solution" with
          | none => .error "Missing solution array"
          | some sv =>
            match board_from_json sv "solution" with
            | .error e => .error e
            | .ok solution =>
              .ok ⟨display_date, print_date, difficulty, puzzle, solution⟩

/-! Helper lemmas about the character-list utilities. -/

theorem head?_dropWhile_false (p : α → Bool) (l : List α) :
    ∀ c, (l.dropWhile p).head? = some c → p c = false := by
  induction l with
  | nil => intro c h; simp [List.dropWhile] at h
  | cons a as ih =>
    intro c h
    rw [List.dropWhile_cons] at h
    by_cases hp : p a = true
    · exact ih c (by simpa [hp] using h)
    · rw [if_neg hp, List.head?_cons, Option.some.injEq] at h
      subst h
      exact Bool.not_eq_true _ |>.mp hp

theorem dropWhile_eq_self_of_head (p : α → Bool) (l : List α)
    (h : ∀ c, l.head? = some c → p c = false) : l.dropWhile p = l := by
  cases l with
  | nil => rfl
  | cons a as => rw [List.dropWhile_cons, h a rfl]; simp

theorem trimLeft_head (s : List Char) :
    ∀ c, (trimLeft s).head? = some c → c.isWhitespace = false :=
  head?_dropWhile_false _ s

theorem trimRight_getLast (s : List Char) :
    ∀ c, (trimRight s).getLast? = some c → c.isWhitespace = false := by
  intro c h
  rw [trimRight, List.getLast?_reverse] at h
  exact head?_dropWhile_false _ _ c h

theorem trimRight_prefix_self (s : List Char) : trimRight s <+: s := by
  obtain ⟨t, ht⟩ := List.dropWhile_suffix (l := s.reverse) (fun c => c.isWhitespace)
  refine ⟨t.reverse, ?_⟩
  rw [trimRight, ← List.reverse_append, ht, List.reverse_reverse]

theorem trimRight_head (s : List Char) :
    ∀ c, (trimRight s).head? = some c → s.head? = some c := by
  intro c h
  obtain ⟨t, ht⟩ := trimRight_prefix_self s
  rw [← ht, List.head?_append, h]
  rfl

theorem trimChars_head (s : List Char) :
    ∀ c, (trimChars s).head? = some c → c.isWhitespace = false :=
  fun c h => trimLeft_head s c (trimRight_head _ c h)

theorem trimChars_getLast (s : List Char) :
    ∀ c, (trimChars s).getLast? = some c → c.isWhitespace = false :=
  fun c h => trimRight_getLast _ c h

theorem trimLeft_eq_self (s : List Char)
    (h : ∀ c, s.head? = some c → c.isWhitespace = false) : trimLeft s = s :=
  dropWhile_eq_self_of_head _ s h

theorem trimRight_eq_self (s : List Char)
    (h : ∀ c, s.getLast? = some c → c.isWhitespace = false) : trimRight s = s := by
  rw [trimRight, dropWhile_eq_self_of_head _ _ fun c hc => h c (by rwa [List.head?_reverse] at hc),
    List.reverse_reverse]

theorem trimChars_eq_self (s : List Char)
    (h1 : ∀ c, s.head? = some c → c.isWhitespace = false)
    (h2 : ∀ c, s.getLast? = some c → c.isWhitespace = false) : trimChars s = s := by
  rw [trimChars, trimLeft_eq_self s h1, trimRight_eq_self s h2]

theorem trimChars_idem (s : List Char) : trimChars (trimChars s) = trimChars s :=
  trimChars_eq_self _ (trimChars_head s) (trimChars_getLast s)

theorem findSubstring_none_iff (needle hay : List Char) :
    findSubstring needle hay = none ↔ ∀ i, ¬ needle <+: hay.drop i := by
  induction hay with
  | nil =>
    simp only [findSubstring, List.drop_nil, List.prefix_nil, List.isEmpty_iff]
    constructor
    · intro h i hne
      subst hne
      simp at h
    · intro h
      have := h 0
      simp [this]
  | cons c rest ih =>
    constructor
    · intro h i
      rw [findSubstring] at h
      by_cases hp : needle.isPrefixOf (c :: rest) = true
      · simp [hp] at h
      · rw [if_neg hp, Option.map_eq_none'] at h
        cases i with
        | zero =>
          simpa [ List.isPrefixOf_iff_prefix] using hp
        | succ j =>
          rw [List.drop_succ_cons]
          exact (ih.mp h) j
    · intro h
      rw [findSubstring]
      by_cases hp : needle.isPrefixOf (c :: rest) = true
      · exact absurd ( List.isPrefixOf_iff_prefix.mp hp) (by simpa using h 0)
      · rw [if_neg hp, Option.map_eq_none']
        exact ih.mpr fun j => by simpa [List.drop_succ_cons] using h (j + 1)

theorem containsSeq_iff (needle hay : List Char) :
    containsSeq needle hay = true ↔ ∃ i, needle <+: hay.drop i := by
  rw [containsSeq, Option.isSome_iff_ne_none]
  rw [ne_eq, findSubstring_none_iff]
  push_neg
  rfl

theorem findSubstring_some (needle hay : List Char) (i : Nat)
    (h : findSubstring needle hay = some i) :
    needle <+: hay.drop i ∧ ∀ j, j < i → ¬ needle <+: hay.drop j := by
  induction hay generalizing i with
  | nil =>
    rw [findSubstring] at h
    by_cases he : needle.isEmpty = true
    · simp only [he, if_true, Option.some.injEq] at h
      subst h
      refine ⟨by simp [List.isEmpty_iff.mp he], fun j hj => absurd hj (Nat.not_lt_zero j)⟩
    · simp [he] at h
  | cons c rest ih =>
    rw [findSubstring] at h
    by_cases hp : needle.isPrefixOf (c :: rest) = true
    · simp only [hp, if_true, Option.some.injEq] at h
      subst h
      exact ⟨by simpa [List.drop] using List.isPrefixOf_iff_prefix.mp hp,
        fun j hj => absurd hj (Nat.not_lt_zero j)⟩
    · simp only [hp, if_false] at h
      obtain ⟨i0, hi0, rfl⟩ := Option.map_eq_some'.mp h
      obtain ⟨h1, h2⟩ := ih i0 hi0
      refine ⟨by simpa [List.drop_succ_cons] using h1, fun j hj => ?_⟩
      cases j with
      | zero => simpa [ List.isPrefixOf_iff_prefix] using hp
      | succ j0 =>
        rw [List.drop_succ_cons]
        exact h2 j0 (Nat.lt_of_succ_lt_succ hj)

theorem findSubstring_eq_some_of (needle hay : List Char) (i : Nat)
    (h1 : needle <+: hay.drop i) (h2 : ∀ j, j < i → ¬ needle <+: hay.drop j) :
    findSubstring needle hay = some i := by
  induction hay generalizing i with
  | nil =>
    rw [List.drop_nil, List.prefix_nil] at h1
    subst h1
    cases i with
    | zero => rfl
    | succ j => exact absurd (by simp) (h2 0 (Nat.succ_pos j))
  | cons c rest ih =>
    cases i with
    | zero =>
      rw [List.drop] at h1
      rw [findSubstring, if_pos ( List.isPrefixOf_iff_prefix.mpr h1)]
    | succ i0 =>
      have hp : ¬ needle.isPrefixOf (c :: rest) = true := by
        simpa [ List.isPrefixOf_iff_prefix] using h2 0 (Nat.succ_pos i0)
      rw [findSubstring, if_neg hp]
      rw [ih i0 (by simpa [List.drop_succ_cons] using h1)
        fun j hj => by simpa [List.drop_succ_cons] using h2 (j + 1) (Nat.succ_lt_succ hj)]
      rfl

/-! Helper lemmas about the board decoder. -/

theorem digitsFromCells_ok (label : String) (xs : List JValue)
    (h : ∀ v ∈ xs, ∃ n : Int, v = JValue.num (some n) ∧ 0 ≤ n ∧ n ≤ 9) :
    ∃ ds : List Nat, digitsFromCells label xs = .ok ds ∧ ds.length = xs.length ∧
      ∀ k : Nat, xs[k]? = (ds[k]?).map fun d => JValue.num (some (Int.ofNat d)) := by
  induction xs with
  | nil => exact ⟨[], rfl, rfl, fun k => by simp⟩
  | cons v rest ih =>
    obtain ⟨n, rfl, hn0, hn9⟩ := h v (List.mem_cons_self v rest)
    obtain ⟨ds, hds, hlen, hidx⟩ := ih fun w hw => h w (List.mem_cons_of_mem _ hw)
    refine ⟨n.toNat :: ds, ?_, by simp [hlen], fun k => ?_⟩
    · simp only [digitsFromCells, JValue.as_i64]
      rw [if_pos ⟨hn0, hn9⟩, hds]
    · cases k with
      | zero =>
        simp only [List.getElem?_cons_zero, Option.map_some']
        rw [show Int.ofNat n.toNat = n from Int.toNat_of_nonneg hn0]
      | succ k0 =>
        simpa only [List.getElem?_cons_succ] using hidx k0

theorem digitsFromCells_error_nonnum (label : String) (xs : List JValue) (k : Nat) (v : JValue)
    (hk : xs[k]? = some v) (hv : v.as_i64 = none)
    (hpre : ∀ j, j < k → ∃ n : Int, xs[j]? = some (JValue.num (some n)) ∧ 0 ≤ n ∧ n ≤ 9) :
    digitsFromCells label xs = .error ("Encountered non-numeric value in " ++ label) := by
  induction k generalizing xs with
  | zero =>
    cases xs with
    | nil => simp at hk
    | cons x rest =>
      rw [List.getElem?_cons_zero, Option.some.injEq] at hk
      subst hk
      simp only [digitsFromCells, hv]
  | succ k0 ih =>
    cases xs with
    | nil => simp at hk
    | cons x rest =>
      obtain ⟨n, hx, hn0, hn9⟩ := hpre 0 (Nat.succ_pos k0)
      rw [List.getElem?_cons_zero, Option.some.injEq] at hx
      subst hx
      simp only [digitsFromCells, JValue.as_i64]
      rw [if_pos ⟨hn0, hn9⟩,
        ih rest (by simpa using hk)
          fun j hj => by simpa using hpre (j + 1) (Nat.succ_lt_succ hj)]

theorem digitsFromCells_error_range (label : String) (xs : List JValue) (k : Nat) (m : Int)
    (hk : xs[k]? = some (JValue.num (some m))) (hm : ¬(0 ≤ m ∧ m ≤ 9))
    (hpre : ∀ j, j < k → ∃ n : Int, xs[j]? = some (JValue.num (some n)) ∧ 0 ≤ n ∧ n ≤ 9) :
    digitsFromCells label xs = .error ("Invalid Sudoku digit " ++ toString m ++ " in " ++ label) := by
  induction k generalizing xs with
  | zero =>
    cases xs with
    | nil => simp at hk
    | cons x rest =>
      rw [List.getElem?_cons_zero, Option.some.injEq] at hk
      subst hk
      simp only [digitsFromCells, JValue.as_i64]
      rw [if_neg hm]
  | succ k0 ih =>
    cases xs with
    | nil => simp at hk
    | cons x rest =>
      obtain ⟨n, hx, hn0, hn9⟩ := hpre 0 (Nat.succ_pos k0)
      rw [List.getElem?_cons_zero, Option.some.injEq] at hx
      subst hx
      simp only [digitsFromCells, JValue.as_i64]
      rw [if_pos ⟨hn0, hn9⟩,
        ih rest (by simpa using hk)
          fun j hj => by simpa using hpre (j + 1) (Nat.succ_lt_succ hj)]

theorem chunksOf_getElem? (n : Nat) (hn : 0 < n) (xs : List α) (i : Nat) :
    (chunksOf n xs)[i]? = if n * i < xs.length then some ((xs.drop (n * i)).take n) else none := by
  induction i generalizing xs with
  | zero =>
    cases n with
    | zero => exact absurd hn (Nat.lt_irrefl 0)
    | succ m =>
      cases xs with
      | nil => simp [chunksOf]
      | cons x rest =>
        rw [chunksOf]
        simp
  | succ i0 ih =>
    cases n with
    | zero => exact absurd hn (Nat.lt_irrefl 0)
    | succ m =>
      cases xs with
      | nil => simp [chunksOf]
      | cons x rest =>
        rw [chunksOf, List.getElem?_cons_succ, ih (rest.drop m)]
        rw [List.length_drop, List.drop_drop, Nat.mul_succ]
        generalize (m + 1) * i0 = a
        by_cases hlt : a + m < rest.length
        · rw [if_pos (by omega), if_pos (by simp; omega)]
          have he : a + (m + 1) = (a + m) + 1 := by omega
          rw [he, List.drop_succ_cons, Nat.add_comm a m]
        · rw [if_neg (by omega), if_neg (by simp; omega)]

/-- C1: board_from_json, applied to a JSON array of exactly 81 integer
elements each in [0, 9], returns a 9-row grid of 9 cells each in row-major
order (flat element 9 * i + j becomes row i, column j); for an array whose
length is not 81 it fails with an error reporting the actual element count;
for a first offending element that is an integer outside [0, 9] it fails
with an error naming that value; and for a first offending element not
representable as a 64-bit integer it fails with the non-numeric-value
error. -/
theorem board_from_json_correct :
    (∀ (xs : List JValue) (label : String),
      (∀ v ∈ xs, ∃ n : Int, v = JValue.num (some n) ∧ 0 ≤ n ∧ n ≤ 9) →
      xs.length = 81 →
      ∃ grid : List (List Nat),
        board_from_json (JValue.arr xs) label = .ok grid ∧
        grid.length = 9 ∧ (∀ row ∈ grid, row.length = 9) ∧
        ∀ i j : Nat, i < 9 → j < 9 →
          ∃ d : Nat, (grid[i]?.bind fun row => row[j]?) = some d ∧
            xs[9 * i + j]? = some (JValue.num (some (Int.ofNat d))))
  ∧ (∀ (xs : List JValue) (label : String), xs.length ≠ 81 →
      board_from_json (JValue.arr xs) label =
        .error ("Sudoku " ++ label ++ " expected 81 entries but found " ++ toString xs.length))
  ∧ (∀ (xs : List JValue) (label : String) (k : Nat) (m : Int),
      xs.length = 81 → xs[k]? = some (JValue.num (some m)) → ¬(0 ≤ m ∧ m ≤ 9) →
      (∀ j, j < k → ∃ n : Int, xs[j]? = some (JValue.num (some n)) ∧ 0 ≤ n ∧ n ≤ 9) →
      board_from_json (JValue.arr xs) label =
        .error ("Invalid Sudoku digit " ++ toString m ++ " in " ++ label))
  ∧ (∀ (xs : List JValue) (label : String) (k : Nat) (v : JValue),
      xs.length = 81 → xs[k]? = some v → v.as_i64 = none →
      (∀ j, j < k → ∃ n : Int, xs[j]? = some (JValue.num (some n)) ∧ 0 ≤ n ∧ n ≤ 9) →
      board_from_json (JValue.arr xs) label =
        .error ("Encountered non-numeric value in " ++ label)) := by
  refine ⟨?_, ?_, ?_, ?_⟩
  · intro xs label hall hlen
    obtain ⟨ds, hds, hdlen, hidx⟩ := digitsFromCells_ok label xs hall
    have hL : ds.length = 81 := hdlen.trans hlen
    refine ⟨chunksOf 9 ds, ?_, ?_, ?_, ?_⟩
    · simp only [board_from_json, JValue.as_array]
      rw [if_neg (not_not_intro hlen), hds]
    · have h9 : (chunksOf 9 ds)[9]? = none := by
        rw [chunksOf_getElem? 9 (by norm_num) ds 9, if_neg (by rw [hL]; norm_num)]
      have h8 : (chunksOf 9 ds)[8]? ≠ none := by
        rw [chunksOf_getElem? 9 (by norm_num) ds 8, if_pos (by rw [hL]; norm_num)]
        exact Option.some_ne_none _
      rw [List.getElem?_eq_none_iff] at h9
      rw [ne_eq, List.getElem?_eq_none_iff] at h8
      omega
    · intro row hrow
      rw [List.mem_iff_getElem?] at hrow
      obtain ⟨i, hi⟩ := hrow
      rw [chunksOf_getElem? 9 (by norm_num) ds i] at hi
      by_cases hc : 9 * i < ds.length
      · rw [if_pos hc] at hi
        rw [Option.some.injEq] at hi
        subst hi
        rw [List.length_take, List.length_drop, hL]
        rw [hL] at hc
        omega
      · rw [if_neg hc] at hi
        exact absurd hi (Option.noConfusion)
    · intro i j hi hj
      have hk : 9 * i + j < 81 := by omega
      refine ⟨ds.get ⟨9 * i + j, by omega⟩, ?_, ?_⟩
      · rw [chunksOf_getElem? 9 (by norm_num) ds i, if_pos (by omega)]
        rw [Option.some_bind, List.getElem?_take, if_pos hj, List.getElem?_drop]
        rw [List.get_eq_getElem]
        exact List.getElem?_eq_getElem (by omega)
      · rw [hidx (9 * i + j), List.getElem?_eq_getElem (n := 9 * i + j) (by omega)]
        rw [List.get_eq_getElem]
        rfl
  · intro xs label hne
    simp only [board_from_json, JValue.as_array]
    rw [if_pos hne]
  · intro xs label k m hlen hk hm hpre
    simp only [board_from_json, JValue.as_array]
    rw [if_neg (not_not_intro hlen), digitsFromCells_error_range label xs k m hk hm hpre]
  · intro xs label k v hlen hk hv hpre
    simp only [board_from_json, JValue.as_array]
    rw [if_neg (not_not_intro hlen), digitsFromCells_error_nonnum label xs k v hk hv hpre]

/-! Helper lemmas about characters and the row scan. -/

theorem ws_not_alpha (c : Char) (h : c.isWhitespace = true) : c.isAlpha = false := by
  simp only [Char.isWhitespace, Bool.or_eq_true, decide_eq_true_eq] at h
  rcases h with ((h | h) | h) | h <;> subst h <;> rfl

theorem mem_of_getLast?_eq (l : List α) (c : α) (h : l.getLast? = some c) : c ∈ l := by
  have hh : l.reverse.head? = some c := by rwa [List.head?_reverse]
  exact List.mem_reverse.mp (List.mem_of_mem_head? (Option.mem_def.mpr hh))

theorem alpha_filter_trim (t : List Char) :
    trimChars (t.filter Char.isAlpha) = t.filter Char.isAlpha := by
  have hws : ∀ c : Char, c ∈ t.filter Char.isAlpha → c.isWhitespace = false := by
    intro c hc
    obtain ⟨-, ha⟩ := List.mem_filter.mp hc
    cases hw : c.isWhitespace with
    | false => rfl
    | true => exact absurd ha (by rw [ws_not_alpha c hw]; simp)
  exact trimChars_eq_self _
    (fun c hc => hws c (List.mem_of_mem_head? (Option.mem_def.mpr hc)))
    (fun c hc => hws c (mem_of_getLast?_eq _ c hc))

theorem scanRows_skip (today : List Char) (row : List Cell) (rest : List (List Cell))
    (h : rowWord row = none) : scanRows today (row :: rest) = scanRows today rest := by
  rw [rowWord] at h
  cases h2 : row[2]? with
  | none => simp only [scanRows, h2]
  | some ac =>
    rw [h2, Option.some_bind] at h
    simp only [scanRows, h2, h]

/-- C4: extract_hidden_word returns a value if and only if the fragment text,
after removing every character that is not an ASCII letter and uppercasing,
has length exactly five, in which case that five-character uppercased string
is returned; on the text of the claim examples it returns STORM and absent
respectively. -/
theorem extract_hidden_word_correct :
    (∀ t : List Char,
      extract_hidden_word t =
        if ((t.filter Char.isAlpha).map Char.toUpper).length = 5
        then some ((t.filter Char.isAlpha).map Char.toUpper)
        else none)
  ∧ extract_hidden_word "  sT-o#rM ".data = some "STORM".data
  ∧ extract_hidden_word "toolong".data = none := by
  refine ⟨?_, by decide, by decide⟩
  intro t
  rw [extract_hidden_word, alpha_filter_trim]

/-- C2 counterexample: on a blob ending in two semicolons the code strips
both, while the claim text (a single trailing semicolon stripped) would
keep one, so the claim as stated is false on this input. -/
theorem blob_single_semi_counterexample :
    extract_game_data_blob "window.gameData = \x7b\x7d;;</script>".data = .ok "\x7b\x7d".data
  ∧ locateBlobSpec "window.gameData = \x7b\x7d;;</script>".data = .ok "\x7b\x7d;".data
  ∧ ("\x7b\x7d".data : List Char) ≠ "\x7b\x7d;".data := by
  refine ⟨by rfl, by rfl, by decide⟩

/-- C2 amended: extract_game_data_blob fails with the marker error when the
marker occurs nowhere; fails with the terminator error when no terminator
follows the first marker occurrence; and otherwise returns the text between
the end of the first marker occurrence and the first following terminator,
trimmed, with every trailing semicolon stripped (the code strips all
trailing semicolons, not a single one), trimmed again; on the claim's
round-trip example it returns the JSON object text. -/
theorem extract_game_data_blob_correct :
    (∀ html : List Char, (∀ i, ¬ MARKER <+: html.drop i) →
      extract_game_data_blob html = .error "window.gameData marker not found")
  ∧ (∀ (html : List Char) (i : Nat),
      MARKER <+: html.drop i → (∀ j, j < i → ¬ MARKER <+: html.drop j) →
      (∀ e, ¬ TERMINATOR <+: (html.drop (i + MARKER.length)).drop e) →
      extract_game_data_blob html = .error "Unable to find </script> following window.gameData")
  ∧ (∀ (html : List Char) (i e : Nat),
      MARKER <+: html.drop i → (∀ j, j < i → ¬ MARKER <+: html.drop j) →
      TERMINATOR <+: (html.drop (i + MARKER.length)).drop e →
      (∀ f, f < e → ¬ TERMINATOR <+: (html.drop (i + MARKER.length)).drop f) →
      extract_game_data_blob html =
        .ok (trimChars (trimEndSemis (trimChars ((html.drop (i + MARKER.length)).take e)))))
  ∧ extract_game_data_blob "junk window.gameData = \x7b\"a\":1\x7d;</script>tail".data
      = .ok "\x7b\"a\":1\x7d".data := by
  refine ⟨?_, ?_, ?_, by rfl⟩
  · intro html h
    simp only [extract_game_data_blob, (findSubstring_none_iff MARKER html).mpr h]
  · intro html i h1 h2 hterm
    simp only [extract_game_data_blob, findSubstring_eq_some_of MARKER html i h1 h2,
      (findSubstring_none_iff TERMINATOR (html.drop (i + MARKER.length))).mpr hterm]
  · intro html i e h1 h2 h3 h4
    simp only [extract_game_data_blob, findSubstring_eq_some_of MARKER html i h1 h2,
      findSubstring_eq_some_of TERMINATOR (html.drop (i + MARKER.length)) e h3 h4]

/-- C2 witness: the amended success branch evaluated on a concrete page. -/
theorem extract_game_data_blob_correct_witness :
    extract_game_data_blob "window.gameData = x;</script>".data =
      .ok (trimChars (trimEndSemis (trimChars
        (("window.gameData = x;</script>".data.drop (0 + MARKER.length)).take 2)))) :=
  extract_game_data_blob_correct.2.2.1 "window.gameData = x;</script>".data 0 2
    (by decide) (by decide) (by decide) (by decide)

/-- C6 counterexample: on the input hash-1234 the code does not return the
input unchanged; it prepends the Wordle prefix. -/
theorem format_label_hash_counterexample :
    format_puzzle_label "#1234".data = "Wordle #1234".data
  ∧ format_puzzle_label "#1234".data ≠ "#1234".data := by
  refine ⟨by decide, by decide⟩

/-- C6 amended: format_puzzle_label applied to the input hash-1234 returns
the label with the Wordle prefix prepended. -/
theorem format_label_hash :
    format_puzzle_label "#1234".data = "Wordle #1234".data := by
  decide

theorem getElem?_cons_one (x : α) (t : List α) : (x :: t)[1]? = t[0]? := by simp

theorem getElem?_cons_two (x : α) (t : List α) : (x :: t)[2]? = t[1]? := by simp

/-- C3: the row scan returns the word of the first row whose third cell
yields a valid hidden word (earlier non-qualifying rows are skipped, later
rows are ignored); rows with fewer than three cells are skipped without
error; and when no row qualifies the scan fails with the answer-not-found
error and returns no partial result. -/
theorem wordle_scan_correct :
    (∀ (today : List Char) (rows : List (List Cell)),
      (∀ row ∈ rows, rowWord row = none) →
      scanRows today rows = .error "Could not find Wordle answer on page")
  ∧ (∀ (today w : List Char) (pre rest : List (List Cell)) (row : List Cell),
      (∀ r ∈ pre, rowWord r = none) → rowWord row = some w →
      ∃ res : WordleData, scanRows today (pre ++ row :: rest) = .ok res ∧ res.word = w)
  ∧ (∀ (today : List Char) (row : List Cell) (rest : List (List Cell)),
      row.length < 3 → scanRows today (row :: rest) = scanRows today rest) := by
  refine ⟨?_, ?_, ?_⟩
  · intro today rows h
    induction rows with
    | nil => rfl
    | cons row rest ih =>
      rw [scanRows_skip today row rest (h row (List.mem_cons_self row rest))]
      exact ih fun r hr => h r (List.mem_cons_of_mem _ hr)
  · intro today w pre rest row hpre hw
    induction pre with
    | nil =>
      rw [List.nil_append]
      rw [rowWord] at hw
      cases h2 : row[2]? with
      | none => rw [h2] at hw; exact absurd hw (by simp)
      | some ac =>
        rw [h2, Option.some_bind] at hw
        have hs : scanRows today (row :: rest) =
            .ok ⟨today, w,
              format_puzzle_label (((row[1]?).map fun c => collect_compact_text c.text).getD [])⟩ := by
          simp only [scanRows, h2, hw]
          rw [ite_self]
        exact ⟨_, hs, rfl⟩
    | cons p pre' ih =>
      rw [List.cons_append, scanRows_skip today p _ (hpre p (List.mem_cons_self p pre'))]
      exact ih fun r hr => hpre r (List.mem_cons_of_mem _ hr)
  · intro today row rest h
    exact scanRows_skip today row rest
      (by rw [rowWord, List.getElem?_eq_none (by omega)]; rfl)

/-- C3 witness: a three-row table in which only the second row qualifies
yields that row's word, and a table with no qualifying row fails. -/
theorem wordle_scan_correct_witness :
    (∃ res : WordleData,
      scanRows "2026-10-12".data
        ([[⟨"Oct 11".data, []⟩, ⟨"#1".data, []⟩, ⟨"x".data, ["toolong".data]⟩]] ++
          [⟨"today".data, []⟩, ⟨"#2".data, []⟩, ⟨"y".data, ["  sT-o#rM ".data]⟩] ::
          [[⟨"Oct 9".data, []⟩]]) = .ok res ∧ res.word = "STORM".data)
  ∧ scanRows "2026-10-12".data [[⟨"a".data, []⟩]] =
      .error "Could not find Wordle answer on page" :=
  ⟨wordle_scan_correct.2.1 "2026-10-12".data "STORM".data _ _ _ (by decide) (by decide),
   wordle_scan_correct.1 "2026-10-12".data _ (by decide)⟩

/-- C8: the date field of every successful scan equals the injected current
local date, and the scan result is entirely independent of the first (date)
cell of every row, including whether or not its text says today. -/
theorem wordle_date_independent :
    ∀ (today : List Char) (rows₁ rows₂ : List (List Cell)),
      List.Forall₂ (fun r₁ r₂ => r₁.length = r₂.length ∧ r₁.tail = r₂.tail) rows₁ rows₂ →
      scanRows today rows₁ = scanRows today rows₂ ∧
      ∀ res : WordleData, scanRows today rows₁ = .ok res → res.date = today := by
  intro today rows₁ rows₂ h
  induction h with
  | nil => exact ⟨rfl, fun res hres => absurd hres (by simp [scanRows])⟩
  | @cons c₁ c₂ l₁ l₂ hr hrest ih =>
    obtain ⟨hlen, htail⟩ := hr
    cases c₁ with
    | nil =>
      have hc2 : c₂ = [] := by simpa using hlen.symm
      subst hc2
      rw [scanRows_skip today [] l₁ rfl, scanRows_skip today [] l₂ rfl]
      exact ih
    | cons x₁ t₁ =>
      cases c₂ with
      | nil => exact absurd hlen (by simp)
      | cons x₂ t₂ =>
        have ht : t₁ = t₂ := by simpa using htail
        subst ht
        cases h2 : t₁[1]? with
        | none =>
          have hw1 : rowWord (x₁ :: t₁) = none := by
            rw [rowWord, getElem?_cons_two, h2]
            rfl
          have hw2 : rowWord (x₂ :: t₁) = none := by
            rw [rowWord, getElem?_cons_two, h2]
            rfl
          rw [scanRows_skip today _ l₁ hw1, scanRows_skip today _ l₂ hw2]
          exact ih
        | some ac =>
          cases h3 : ac.hiddenSpans.findSome? extract_hidden_word with
          | none =>
            have hw1 : rowWord (x₁ :: t₁) = none := by
              rw [rowWord, getElem?_cons_two, h2, Option.some_bind, h3]
            have hw2 : rowWord (x₂ :: t₁) = none := by
              rw [rowWord, getElem?_cons_two, h2, Option.some_bind, h3]
            rw [scanRows_skip today _ l₁ hw1, scanRows_skip today _ l₂ hw2]
            exact ih
          | some w =>
            constructor
            · simp only [scanRows, getElem?_cons_two, getElem?_cons_one, h2, h3]
              rw [ite_self, ite_self]
            · intro res hres
              simp only [scanRows, getElem?_cons_two, getElem?_cons_one, h2, h3] at hres
              rw [ite_self] at hres
              cases hres
              rfl

/-- C8 witness: two one-row tables differing only in the date cell produce
identical results, and the result's date is the injected current date. -/
theorem wordle_date_independent_witness :
    scanRows "2026-10-12".data
        [[⟨"today".data, []⟩, ⟨"#9".data, []⟩, ⟨"z".data, ["STORM".data]⟩]] =
      scanRows "2026-10-12".data
        [[⟨"Oct 11".data, []⟩, ⟨"#9".data, []⟩, ⟨"z".data, ["STORM".data]⟩]]
  ∧ (⟨"2026-10-12".data, "STORM".data, "Wordle #9".data⟩ : WordleData).date =
      "2026-10-12".data :=
  ⟨(wordle_date_independent "2026-10-12".data
      [[⟨"today".data, []⟩, ⟨"#9".data, []⟩, ⟨"z".data, ["STORM".data]⟩]]
      [[⟨"Oct 11".data, []⟩, ⟨"#9".data, []⟩, ⟨"z".data, ["STORM".data]⟩]]
      (List.Forall₂.cons ⟨rfl, rfl⟩ List.Forall₂.nil)).1,
   (wordle_date_independent "2026-10-12".data
      [[⟨"today".data, []⟩, ⟨"#9".data, []⟩, ⟨"z".data, ["STORM".data]⟩]]
      [[⟨"Oct 11".data, []⟩, ⟨"#9".data, []⟩, ⟨"z".data, ["STORM".data]⟩]]
      (List.Forall₂.cons ⟨rfl, rfl⟩ List.Forall₂.nil)).2
     ⟨"2026-10-12".data, "STORM".data, "Wordle #9".data⟩ (by rfl)⟩

/-- C5 counterexample: on an input with surrounding whitespace the code
appends the trimmed string after the Wordle prefix, not the raw input as
the claim states. -/
theorem format_label_raw_counterexample :
    format_puzzle_label " 1234 ".data = "Wordle #1234".data
  ∧ format_puzzle_label " 1234 ".data ≠ "Wordle #".data ++ " 1234 ".data := by
  refine ⟨by decide, by decide⟩

/-- C5 amended: after trimming, an empty string gives the default label; a
trimmed string containing wordle case-insensitively is returned unchanged; a
trimmed string starting with the hash character gets the Wordle prefix and a
space; any other trimmed string gets the Wordle prefix, a space and a hash
(the code appends the trimmed string, not the raw input). The first
conjunct relates the containment test to substring containment. -/
theorem format_puzzle_label_branches :
    (∀ needle hay : List Char, containsSeq needle hay = true ↔ ∃ i, needle <+: hay.drop i)
  ∧ (∀ raw : List Char, trimChars raw = [] → format_puzzle_label raw = "Wordle".data)
  ∧ (∀ raw : List Char, trimChars raw ≠ [] →
      containsSeq "wordle".data ((trimChars raw).map Char.toLower) = true →
      format_puzzle_label raw = trimChars raw)
  ∧ (∀ raw : List Char, trimChars raw ≠ [] →
      containsSeq "wordle".data ((trimChars raw).map Char.toLower) = false →
      (trimChars raw).head? = some '#' →
      format_puzzle_label raw = "Wordle ".data ++ trimChars raw)
  ∧ (∀ raw : List Char, trimChars raw ≠ [] →
      containsSeq "wordle".data ((trimChars raw).map Char.toLower) = false →
      (trimChars raw).head? ≠ some '#' →
      format_puzzle_label raw = "Wordle #".data ++ trimChars raw) := by
  refine ⟨containsSeq_iff, ?_, ?_, ?_, ?_⟩
  · intro raw h
    simp [format_puzzle_label, h]
  · intro raw hne hc
    simp [format_puzzle_label, List.isEmpty_eq_false.mpr hne, hc]
  · intro raw hne hc hh
    simp [format_puzzle_label, List.isEmpty_eq_false.mpr hne, hc, hh]
  · intro raw hne hc hh
    simp [format_puzzle_label, List.isEmpty_eq_false.mpr hne, hc, hh]

/-- C5 witness: the four branches evaluated on concrete labels. -/
theorem format_puzzle_label_branches_witness :
    format_puzzle_label "".data = "Wordle".data
  ∧ format_puzzle_label "Wordle #999".data = trimChars "Wordle #999".data
  ∧ format_puzzle_label "#12".data = "Wordle ".data ++ trimChars "#12".data
  ∧ format_puzzle_label "1234".data = "Wordle #".data ++ trimChars "1234".data :=
  ⟨format_puzzle_label_branches.2.1 "".data (by decide),
   format_puzzle_label_branches.2.2.1 "Wordle #999".data (by decide) (by decide),
   format_puzzle_label_branches.2.2.2.1 "#12".data (by decide) (by decide) (by decide),
   format_puzzle_label_branches.2.2.2.2 "1234".data (by decide) (by decide) (by decide)⟩

theorem format_puzzle_label_of_contains (t : List Char) (hne : t.isEmpty = false)
    (htrim : trimChars t = t)
    (hc : containsSeq "wordle".data (t.map Char.toLower) = true) :
    format_puzzle_label t = t := by
  simp [format_puzzle_label, htrim, hne, hc]

theorem format_puzzle_label_fix_aux (A t : List Char)
    (hnil : t ≠ [])
    (hlast : ∀ c, t.getLast? = some c → c.isWhitespace = false)
    (hhead : ∀ c, (A ++ t).head? = some c → c.isWhitespace = false)
    (hne : (A ++ t).isEmpty = false)
    (hc : containsSeq "wordle".data ((A ++ t).map Char.toLower) = true) :
    format_puzzle_label (A ++ t) = A ++ t := by
  have htrim2 : trimChars (A ++ t) = A ++ t :=
    trimChars_eq_self _ hhead
      (fun c hcc => hlast c (by rwa [List.getLast?_append_of_ne_nil _ hnil] at hcc))
  exact format_puzzle_label_of_contains _ hne htrim2 hc

/-- C9: format_puzzle_label is idempotent; every output is either the
default label or already contains wordle case-insensitively and is already
trimmed, so a second application returns it unchanged. -/
theorem format_puzzle_label_idem (s : List Char) :
    format_puzzle_label (format_puzzle_label s) = format_puzzle_label s := by
  by_cases h0 : (trimChars s).isEmpty = true
  · have hout : format_puzzle_label s = "Wordle".data := by
      simp [format_puzzle_label, h0]
    rw [hout]
    decide
  · have hne : (trimChars s).isEmpty = false := by
      cases hb : (trimChars s).isEmpty
      · rfl
      · exact absurd hb h0
    have hnil : trimChars s ≠ [] := List.isEmpty_eq_false.mp hne
    have htt : trimChars (trimChars s) = trimChars s := trimChars_idem s
    have hlast : ∀ c, (trimChars s).getLast? = some c → c.isWhitespace = false :=
      trimChars_getLast s
    by_cases hc : containsSeq "wordle".data ((trimChars s).map Char.toLower) = true
    · have hout : format_puzzle_label s = trimChars s := by
        simp [format_puzzle_label, hne, hc]
      rw [hout]
      exact format_puzzle_label_of_contains _ hne htt hc
    · have hcf : containsSeq "wordle".data ((trimChars s).map Char.toLower) = false := by
        cases hb : containsSeq "wordle".data ((trimChars s).map Char.toLower)
        · rfl
        · exact absurd hb hc
      by_cases hh : (trimChars s).head? = some '#'
      · have hout : format_puzzle_label s = "Wordle ".data ++ trimChars s := by
          simp [format_puzzle_label, hne, hcf, hh]
        rw [hout]
        have h1 : ("Wordle ".data ++ trimChars s).head? = some 'W' := by
          rw [List.head?_append]
          rfl
        refine format_puzzle_label_fix_aux _ _ hnil hlast ?_ ?_ ?_
        · intro c hcc
          rw [h1, Option.some.injEq] at hcc
          subst hcc
          rfl
        · rfl
        · apply (containsSeq_iff _ _).mpr
          refine ⟨0, ?_⟩
          rw [List.drop_zero, List.map_append]
          exact ⟨' ' :: (trimChars s).map Char.toLower, rfl⟩
      · have hout : format_puzzle_label s = "Wordle #".data ++ trimChars s := by
          simp [format_puzzle_label, hne, hcf, hh]
        rw [hout]
        have h1 : ("Wordle #".data ++ trimChars s).head? = some 'W' := by
          rw [List.head?_append]
          rfl
        refine format_puzzle_label_fix_aux _ _ hnil hlast ?_ ?_ ?_
        · intro c hcc
          rw [h1, Option.some.injEq] at hcc
          subst hcc
          rfl
        · rfl
        · apply (containsSeq_iff _ _).mpr
          refine ⟨0, ?_⟩
          rw [List.drop_zero, List.map_append]
          exact ⟨' ' :: '#' :: (trimChars s).map Char.toLower, rfl⟩

/-- C7: in the Sudoku field-reading pipeline a missing hard object is a
terminal missing-puzzle-block failure; within it a missing puzzle_data
object is a terminal missing-puzzle-data failure; missing puzzle and
solution fields each produce their own distinct missing-array failure, the
puzzle one before any board decode and the solution one after the puzzle
board decodes; and on success a missing or non-string displayDate defaults
to the empty string, a missing difficulty defaults to Hard, and a missing
print_date defaults to the displayDate value. -/
theorem sudoku_from_root_fields :
    (∀ root : JValue, root.getF "hard" = none →
      sudoku_from_root root = .error "Missing hard puzzle block")
  ∧ (∀ (root hard : JValue), root.getF "hard" = some hard →
      hard.getF "puzzle_data" = none →
      sudoku_from_root root = .error "Missing puzzle_data block")
  ∧ (∀ (root hard pd : JValue), root.getF "hard" = some hard →
      hard.getF "puzzle_data" = some pd → pd.getF "puzzle" = none →
      sudoku_from_root root = .error "Missing puzzle array")
  ∧ (∀ (root hard pd pv : JValue) (b : List (List Nat)),
      root.getF "hard" = some hard → hard.getF "puzzle_data" = some pd →
      pd.getF "puzzle" = some pv → board_from_json pv "puzzle" = .ok b →
      pd.getF "solution" = none →
      sudoku_from_root root = .error "Missing solution array")
  ∧ (∀ (root : JValue) (r : SudokuData), sudoku_from_root root = .ok r →
      ((root.getF "displayDate").bind JValue.as_str = none → r.display_date = "")
      ∧ ∀ hard : JValue, root.getF "hard" = some hard →
          (hard.getF "difficulty" = none → r.difficulty = "Hard")
          ∧ (hard.getF "print_date" = none → r.print_date = r.display_date)) := by
  refine ⟨?_, ?_, ?_, ?_, ?_⟩
  · intro root h
    simp only [sudoku_from_root, h]
  · intro root hard h1 h2
    simp only [sudoku_from_root, h1, h2]
  · intro root hard pd h1 h2 h3
    simp only [sudoku_from_root, h1, h2, h3]
  · intro root hard pd pv b h1 h2 h3 hb h4
    simp only [sudoku_from_root, h1, h2, h3, hb, h4]
  · intro root r h
    simp only [sudoku_from_root] at h
    cases h1 : root.getF "hard" with
    | none =>
      simp only [h1] at h
      exact Except.noConfusion h
    | some hard =>
      simp only [h1] at h
      cases h2 : hard.getF "puzzle_data" with
      | none =>
        simp only [h2] at h
        exact Except.noConfusion h
      | some pd =>
        simp only [h2] at h
        cases h3 : pd.getF "puzzle" with
        | none =>
          simp only [h3] at h
          exact Except.noConfusion h
        | some pv =>
          simp only [h3] at h
          cases hb : board_from_json pv "puzzle" with
          | error e =>
            simp only [hb] at h
            exact Except.noConfusion h
          | ok puz =>
            simp only [hb] at h
            cases h4 : pd.getF "solution" with
            | none =>
              simp only [h4] at h
              exact Except.noConfusion h
            | some sv =>
              simp only [h4] at h
              cases hs : board_from_json sv "solution" with
              | error e =>
                simp only [hs] at h
                exact Except.noConfusion h
              | ok sol =>
                simp only [hs, Except.ok.injEq] at h
                subst h
                refine ⟨fun hd => by simp [hd], fun hard2 hh2 => ?_⟩
                rw [Option.some.injEq] at hh2
                subst hh2
                exact ⟨fun hdiff => by simp [hdiff], fun hpr => by simp [hpr]⟩

/-- C7 witness: the failure points and the defaults evaluated on concrete
gameData objects. -/
theorem sudoku_from_root_fields_witness :
    sudoku_from_root (JValue.obj []) = .error "Missing hard puzzle block"
  ∧ sudoku_from_root (JValue.obj [("hard", JValue.obj [])]) = .error "Missing puzzle_data block"
  ∧ sudoku_from_root (JValue.obj [("hard", JValue.obj [("puzzle_data", JValue.obj [])])]) =
      .error "Missing puzzle array"
  ∧ sudoku_from_root (JValue.obj [("hard", JValue.obj [("puzzle_data", JValue.obj
      [("puzzle", JValue.arr (List.replicate 81 (JValue.num (some 1))))])])]) =
      .error "Missing solution array"
  ∧ (⟨"", "", "Hard", chunksOf 9 (List.replicate 81 1),
        chunksOf 9 (List.replicate 81 1)⟩ : SudokuData).display_date = ""
  ∧ (⟨"", "", "Hard", chunksOf 9 (List.replicate 81 1),
        chunksOf 9 (List.replicate 81 1)⟩ : SudokuData).difficulty = "Hard"
  ∧ (⟨"", "", "Hard", chunksOf 9 (List.replicate 81 1),
        chunksOf 9 (List.replicate 81 1)⟩ : SudokuData).print_date =
      (⟨"", "", "Hard", chunksOf 9 (List.replicate 81 1),
        chunksOf 9 (List.replicate 81 1)⟩ : SudokuData).display_date := by
  have hfull := sudoku_from_root_fields.2.2.2.2
    (JValue.obj [("hard", JValue.obj [("puzzle_data", JValue.obj
      [("puzzle", JValue.arr (List.replicate 81 (JValue.num (some 1)))),
       ("solution", JValue.arr (List.replicate 81 (JValue.num (some 1))))])])])
    ⟨"", "", "Hard", chunksOf 9 (List.replicate 81 1), chunksOf 9 (List.replicate 81 1)⟩
    (by rfl)
  refine ⟨sudoku_from_root_fields.1 _ rfl,
    sudoku_from_root_fields.2.1 _ _ rfl rfl,
    sudoku_from_root_fields.2.2.1 _ _ _ rfl rfl rfl,
    sudoku_from_root_fields.2.2.2.1 _ _ _ _ _ rfl rfl rfl rfl rfl,
    hfull.1 rfl, (hfull.2 _ rfl).1 rfl, (hfull.2 _ rfl).2 rfl⟩

/-- C10: a numeric element not representable as a 64-bit integer, such as
the fractional 4.5, is reported with the non-numeric-value error, the same
message used for strings or nulls, and not with the out-of-range-digit
error, because the integer conversion happens before the range check. -/
theorem board_nonnum_before_range :
    (∀ (label : String) (xs : List JValue) (k : Nat),
      xs.length = 81 → xs[k]? = some (JValue.num none) →
      (∀ j, j < k → ∃ n : Int, xs[j]? = some (JValue.num (some n)) ∧ 0 ≤ n ∧ n ≤ 9) →
      board_from_json (JValue.arr xs) label =
        .error ("Encountered non-numeric value in " ++ label))
  ∧ (∀ (label : String) (xs : List JValue) (k : Nat) (s : String),
      xs.length = 81 → xs[k]? = some (JValue.str s) →
      (∀ j, j < k → ∃ n : Int, xs[j]? = some (JValue.num (some n)) ∧ 0 ≤ n ∧ n ≤ 9) →
      board_from_json (JValue.arr xs) label =
        .error ("Encountered non-numeric value in " ++ label))
  ∧ (∀ (label : String) (xs : List JValue) (k : Nat),
      xs.length = 81 → xs[k]? = some JValue.null →
      (∀ j, j < k → ∃ n : Int, xs[j]? = some (JValue.num (some n)) ∧ 0 ≤ n ∧ n ≤ 9) →
      board_from_json (JValue.arr xs) label =
        .error ("Encountered non-numeric value in " ++ label))
  ∧ (∀ (label : String) (m : Int),
      ("Encountered non-numeric value in " ++ label) ≠
        ("Invalid Sudoku digit " ++ toString m ++ " in " ++ label)) := by
  refine ⟨?_, ?_, ?_, ?_⟩
  · intro label xs k hlen hk hpre
    simp only [board_from_json, JValue.as_array]
    rw [if_neg (not_not_intro hlen),
      digitsFromCells_error_nonnum label xs k _ hk rfl hpre]
  · intro label xs k s hlen hk hpre
    simp only [board_from_json, JValue.as_array]
    rw [if_neg (not_not_intro hlen),
      digitsFromCells_error_nonnum label xs k _ hk rfl hpre]
  · intro label xs k hlen hk hpre
    simp only [board_from_json, JValue.as_array]
    rw [if_neg (not_not_intro hlen),
      digitsFromCells_error_nonnum label xs k _ hk rfl hpre]
  · intro label m h
    have h1 : ("Encountered non-numeric value in " ++ label).data.head? = some 'E' := by
      rw [String.data_append]
      rfl
    have h2 : ("Invalid Sudoku digit " ++ toString m ++ " in " ++ label).data.head? =
        some 'I' := by
      simp only [String.data_append, List.head?_append]
      rfl
    rw [h, h2] at h1
    exact absurd h1 (by decide)

/-- C10 witness: a board whose first cell is a non-integer number fails with
the non-numeric message, which differs from the digit-range message. -/
theorem board_nonnum_before_range_witness :
    board_from_json
        (JValue.arr (JValue.num none :: List.replicate 80 (JValue.num (some 3)))) "puzzle"
      = .error ("Encountered non-numeric value in " ++ "puzzle")
  ∧ ("Encountered non-numeric value in " ++ "puzzle") ≠
      ("Invalid Sudoku digit " ++ toString (10 : Int) ++ " in " ++ "puzzle") :=
  ⟨board_nonnum_before_range.1 "puzzle" _ 0 (by simp) rfl
      (fun j hj => absurd hj (Nat.not_lt_zero j)),
   board_nonnum_before_range.2.2.2 "puzzle" 10⟩

/-- C1 witness: the success branch evaluated on an array of 81 threes. -/
theorem board_from_json_correct_witness :
    ∃ grid : List (List Nat),
      board_from_json (JValue.arr (List.replicate 81 (JValue.num (some 3)))) "puzzle" =
        .ok grid ∧
      grid.length = 9 ∧ (∀ row ∈ grid, row.length = 9) ∧
      ∀ i j : Nat, i < 9 → j < 9 →
        ∃ d : Nat, (grid[i]?.bind fun row => row[j]?) = some d ∧
          (List.replicate 81 (JValue.num (some 3)))[9 * i + j]? =
            some (JValue.num (some (Int.ofNat d))) :=
  board_from_json_correct.1 (List.replicate 81 (JValue.num (some 3))) "puzzle"
    (fun v hv => ⟨3, List.eq_of_mem_replicate hv, by decide, by decide⟩)
    (by simp)
